import Mathlib

/-!
Shallow embedding of the cooperative event loop of trezor-core
(`src/trezor/loop.py`) and its workflow supervisor
(`src/trezor/workflow.py`).

Tasks are opaque handles; a task's coroutine body is represented by a
`Behavior` function giving, for each resume (a sent value or a thrown
failure), the outcome of that single step.  Global mutable state of the
loop module (time queue, paused table, signal and wait objects, log,
after-step hook) is collected in `LoopState` and every loop operation is
a function on it, translated clause by clause from the Python source.
-/

namespace Trezor

/-- A Python exception value, identified by its message. -/
structure Exc where
  msg : String
deriving DecidableEq, Repr

/-- A task handle.  `mk id` is a client coroutine; `waitWrap wid child` is
the supervising wrapper coroutine `Wait._wait(child)` created by the Wait
object with identity `wid`. -/
inductive Task where
  | mk (id : Nat)
  | waitWrap (wid : Nat) (child : Task)
deriving DecidableEq, Repr

/-- A syscall object as yielded by a task: `Sleep` and `Select` carry their
payload; `Signal` and `Wait` are mutable objects referenced by identity
into the stores of `LoopState`. -/
inductive SyscallRef where
  | sleep (delayUs : Nat)
  | select (msgIface : Nat)
  | signal (sid : Nat)
  | wait (wid : Nat)
deriving DecidableEq, Repr

/-- A primitive Python value, as carried inside a message tuple. -/
inductive Atom where
  | pynone
  | num (n : Nat)
  | str (s : String)
  | exc (e : Exc)
deriving DecidableEq, Repr

/-- A Python value as seen by the scheduler: `None`, numbers, strings,
tuples of primitives, exception objects, and syscall objects. -/
inductive Value where
  | pynone
  | num (n : Nat)
  | str (s : String)
  | tup (vs : List Atom)
  | exc (e : Exc)
  | syscall (sc : SyscallRef)
deriving DecidableEq, Repr

/-- A log record, mirroring the arguments of the `trezor.log` call in the
source.  `exception name e` is `log.exception(name, e)` (src/trezor/log.py
line 52): it passes the module name and the exception only. -/
inductive LogEvent where
  | debug (name msgFmt : String) (t : Task)
  | error (name msgFmt : String) (v : Value)
  | exception (name : String) (e : Exc)
  | info (name msgFmt : String) (t : Task)
deriving DecidableEq, Repr

/-- Numeric level at which a record is logged (src/trezor/log.py):
`log.debug` at DEBUG=10, `log.error` and `log.exception` at ERROR=40,
`log.info` at INFO=20. -/
def LogEvent.level : LogEvent → Nat
  | .debug .. => 10
  | .error .. => 40
  | .exception .. => 40
  | .info .. => 20

/-- The task argument carried by a log record, if any. -/
def LogEvent.taskArg : LogEvent → Option Task
  | .debug _ _ t => some t
  | .info _ _ t => some t
  | .error .. => none
  | .exception .. => none

/-- Modelled from the spec: `utime.ticks_diff`, the wrap-aware signed
difference of two 32-bit microsecond counters (spec section 6 Clocks:
"all deadlines and sleeps are in microseconds against a 32-bit monotonic
counter; differences use wrap-aware subtraction").  The MicroPython
`utime` module is external to the repository. -/
def ticksDiff (a b : Nat) : Int :=
  ((a : Int) - (b : Int) + 2 ^ 31) % 2 ^ 32 - 2 ^ 31

/-- Modelled from the spec: `utime.ticks_add`, wrap-aware addition of a
delay to a 32-bit microsecond counter. -/
def ticksAdd (a b : Nat) : Nat :=
  (a + b) % 2 ^ 32

/-- Deadline `a` sorts no later than deadline `b` (wrap-aware). -/
def tle (a b : Nat) : Bool :=
  decide (ticksDiff a b ≤ 0)

/-- One Time Queue entry `(deadline, task, resume value)`. -/
structure Entry where
  deadline : Nat
  task : Task
  value : Value
deriving DecidableEq, Repr

/-- The Time Queue, represented as its list of entries in pop order
(front = next to pop). -/
abbrev TimeQ := List Entry

/-- Modelled from the spec: `utimeq.utimeq.push`.  The spec (section 4.1)
specifies a min-heap by wrap-aware deadline with FIFO tie-breaking, so a
push inserts the new entry after every entry that pops no later than it. -/
def timeqPush (q : TimeQ) (e : Entry) : TimeQ :=
  match q with
  | [] => [e]
  | x :: xs => if tle x.deadline e.deadline then x :: timeqPush xs e else e :: x :: xs

/-- Tasks of the entries of a queue. -/
def timeqTasks (q : TimeQ) : List Task :=
  q.map Entry.task

/-- The rebuild loop of `unschedule_task` (src/trezor/loop.py lines 56-62):
pop every entry of the old queue and push those whose task differs from
`task` onto a fresh queue `copy`. -/
def unschedule_go (task : Task) : TimeQ → TimeQ → TimeQ
  | [], copy => copy
  | e :: rest, copy =>
      unschedule_go task rest (if e.task = task then copy else timeqPush copy e)

/-- Embeds `unschedule_task` at the level of the raw queue. -/
def timeqUnschedule (task : Task) (q : TimeQ) : TimeQ :=
  unschedule_go task q []

/-- The Paused Table: association list from interface id to the ordered
list of tasks awaiting a message there (`_paused_tasks`). -/
abbrev PausedTab := List (Nat × List Task)

/-- Dictionary lookup on the Paused Table. -/
def pausedLookup (p : PausedTab) (iface : Nat) : Option (List Task) :=
  match p with
  | [] => none
  | (i, ts) :: rest => if i = iface then some ts else pausedLookup rest iface

/-- Embeds `_pause_task` (src/trezor/loop.py lines 65-69): append `task` to the
list at `iface`, creating the list if absent. -/
def pausedInsert (p : PausedTab) (task : Task) (iface : Nat) : PausedTab :=
  match p with
  | [] => [(iface, [task])]
  | (i, ts) :: rest =>
      if i = iface then (i, ts ++ [task]) :: rest
      else (i, ts) :: pausedInsert rest task iface

/-- Embeds `_unpause_task` (src/trezor/loop.py lines 72-75): for every interface,
remove the first occurrence of `task` from its list if present
(`list.remove` removes one occurrence; `List.erase` is a no-op when the
element is absent, matching the `in` guard). -/
def pausedEraseTask (p : PausedTab) (task : Task) : PausedTab :=
  p.map (fun pr => (pr.1, pr.2.erase task))

/-- Embeds `dict.pop(iface, ())` on the Paused Table: remove the entry for
`iface` (no-op when absent). -/
def pausedPop (p : PausedTab) (iface : Nat) : PausedTab :=
  match p with
  | [] => []
  | (i, ts) :: rest => if i = iface then rest else (i, ts) :: pausedPop rest iface

/-- State of one `Signal` object: `value` slot (`_NO_VALUE` is `none`) and
`task` slot. -/
structure SignalState where
  value : Option Value
  task : Option Task
deriving DecidableEq, Repr

/-- State of one `Wait` object. -/
structure WaitState where
  children : List Task
  wait_for : Nat
  exit_others : Bool
  scheduled : List Task
  finished : List Task
  task : Option Task
deriving DecidableEq, Repr

/-- The global mutable state of the loop module, plus ghost
instrumentation: `hookRuns` counts invocations of `after_step_hook`,
`stepTrace` records each `_step_task` call `(task, value)` in order, and
`closed` records each `task.close()` call. -/
structure LoopState where
  now : Nat
  scheduled_tasks : TimeQ
  paused_tasks : PausedTab
  signals : List (Nat × SignalState)
  waits : List (Nat × WaitState)
  log : List LogEvent
  hookSet : Bool
  hookRuns : Nat
  stepTrace : List (Task × Value)
  closed : List Task
deriving DecidableEq, Repr

/-- Embeds `schedule_task(task, value, deadline)` (src/trezor/loop.py lines
41-48): a `none` deadline defaults to `utime.ticks_us()`, the current
time; push `(deadline, task, value)`. -/
def schedule_task (s : LoopState) (task : Task) (value : Value) (deadline : Option Nat) : LoopState :=
  { s with scheduled_tasks := timeqPush s.scheduled_tasks ⟨deadline.getD s.now, task, value⟩ }

/-- Embeds `unschedule_task(task)` (src/trezor/loop.py lines 51-62). -/
def unschedule_task (s : LoopState) (task : Task) : LoopState :=
  { s with scheduled_tasks := timeqUnschedule task s.scheduled_tasks }

/-- Embeds `_pause_task` acting on the global state. -/
def pause_task (s : LoopState) (task : Task) (iface : Nat) : LoopState :=
  { s with paused_tasks := pausedInsert s.paused_tasks task iface }

/-- Embeds `_unpause_task` acting on the global state. -/
def unpause_task (s : LoopState) (task : Task) : LoopState :=
  { s with paused_tasks := pausedEraseTask s.paused_tasks task }

/-- Association-list lookup for signal objects. -/
def sigLookup (sigs : List (Nat × SignalState)) (sid : Nat) : Option SignalState :=
  match sigs with
  | [] => none
  | (i, sg) :: rest => if i = sid then some sg else sigLookup rest sid

/-- Overwrite the signal stored under `sid`. -/
def sigSet (sigs : List (Nat × SignalState)) (sid : Nat) (sg : SignalState) : List (Nat × SignalState) :=
  match sigs with
  | [] => []
  | (i, old) :: rest => if i = sid then (i, sg) :: sigSet rest sid sg else (i, old) :: sigSet rest sid sg

/-- Embeds `Signal._deliver` (src/trezor/loop.py lines 221-225): iff both slots
are occupied, schedule the task at the current time with the value and
clear both slots. -/
def signal_deliver (s : LoopState) (sid : Nat) : LoopState :=
  match sigLookup s.signals sid with
  | none => s
  | some sg =>
      match sg.task, sg.value with
      | some task, some value =>
          let s1 := schedule_task s task value none
          { s1 with signals := sigSet s1.signals sid ⟨none, none⟩ }
      | _, _ => s

/-- Embeds `Signal.handle(task)` (src/trezor/loop.py lines 213-215): store the
task, then attempt delivery. -/
def signal_handle (s : LoopState) (sid : Nat) (task : Task) : LoopState :=
  match sigLookup s.signals sid with
  | none => s
  | some sg =>
      let sg1 := { sg with task := some task }
      signal_deliver { s with signals := sigSet s.signals sid sg1 } sid

/-- Embeds `Signal.send(value)` (src/trezor/loop.py lines 217-219): store the
value (overwriting any previous one), then attempt delivery. -/
def signal_send (s : LoopState) (sid : Nat) (value : Value) : LoopState :=
  match sigLookup s.signals sid with
  | none => s
  | some sg =>
      let sg1 := { sg with value := some value }
      signal_deliver { s with signals := sigSet s.signals sid sg1 } sid

/-- Association-list lookup for wait objects. -/
def waitLookup (ws : List (Nat × WaitState)) (wid : Nat) : Option WaitState :=
  match ws with
  | [] => none
  | (i, w) :: rest => if i = wid then some w else waitLookup rest wid

/-- Overwrite the wait record stored under `wid`. -/
def waitSet (ws : List (Nat × WaitState)) (wid : Nat) (w : WaitState) : List (Nat × WaitState) :=
  ws.map (fun pr => if pr.1 = wid then (pr.1, w) else pr)

/-- Embeds `Wait.handle(task)` (src/trezor/loop.py lines 260-267): record the
parent, clear `finished` and `scheduled`, then for each child create the
wrapper `_wait(child)`, append it to `scheduled` and schedule it at the
current time. -/
def wait_handle (s : LoopState) (wid : Nat) (task : Task) : LoopState :=
  match waitLookup s.waits wid with
  | none => s
  | some w =>
      let wrappers := w.children.map (Task.waitWrap wid)
      let w1 := { w with task := some task, finished := ([] : List Task), scheduled := wrappers }
      let s1 := { s with waits := waitSet s.waits wid w1 }
      wrappers.foldl (fun st ct => schedule_task st ct Value.pynone none) s1

/-- The body of the `Wait.exit()` loop (src/trezor/loop.py lines 270-274)
for one scheduled task: if it is not in `finished`, unpause it,
unschedule it, and close it (`close()` is recorded in the ghost `closed`
list). -/
def wait_exit_step (finished : List Task) (st : LoopState) (t : Task) : LoopState :=
  if t ∈ finished then st
  else
    let st1 := unpause_task st t
    let st2 := unschedule_task st1 t
    { st2 with closed := st2.closed ++ [t] }

/-- Embeds `Wait.exit()` (src/trezor/loop.py lines 269-274): for every task in
`scheduled` not in `finished`, unpause it, unschedule it and close it. -/
def wait_exit (s : LoopState) (wid : Nat) : LoopState :=
  match waitLookup s.waits wid with
  | none => s
  | some w => w.scheduled.foldl (wait_exit_step w.finished) s

/-- One resume of a task: the scheduler either sends a value or throws a
failure into it. -/
inductive StepInput where
  | send (v : Value)
  | thro (e : Exc)
deriving DecidableEq, Repr

/-- Outcome of one resume of a task: it finished (`StopIteration`),
raised a failure, or yielded a value. -/
inductive StepOutcome where
  | stop
  | raised (e : Exc)
  | yielded (r : Value)
deriving DecidableEq, Repr

/-- The coroutine bodies of all tasks, one step at a time. -/
abbrev Behavior := Task → StepInput → StepOutcome

/-- The resume performed by `_step_task` (src/trezor/loop.py lines
118-122): a failure value is thrown into the task, anything else is sent. -/
def step_outcome (beh : Behavior) (task : Task) (value : Value) : StepOutcome :=
  match value with
  | .exc e => beh task (.thro e)
  | v => beh task (.send v)

/-- Embeds `Sleep.handle(task)` (src/trezor/loop.py lines 168-170): compute
`deadline = ticks_add(now, delay_us)` and call
`schedule_task(task, deadline, deadline)` — the deadline is both the
scheduling key and the resume value. -/
def sleep_handle (s : LoopState) (delayUs : Nat) (task : Task) : LoopState :=
  let deadline := ticksAdd s.now delayUs
  schedule_task s task (.num deadline) (some deadline)

/-- Embeds `Syscall.handle` dispatch on the value yielded by a task
(src/trezor/loop.py line 129 together with the four `handle`
implementations). -/
def syscall_handle (s : LoopState) (sc : SyscallRef) (task : Task) : LoopState :=
  match sc with
  | .sleep delayUs => sleep_handle s delayUs task
  | .select msgIface => pause_task s task msgIface
  | .signal sid => signal_handle s sid task
  | .wait wid => wait_handle s wid task

/-- Embeds `_step_task(task, value)` (src/trezor/loop.py lines 117-135). -/
def step_task (beh : Behavior) (s : LoopState) (task : Task) (value : Value) : LoopState :=
  let s0 := { s with stepTrace := s.stepTrace ++ [(task, value)] }
  match step_outcome beh task value with
  | .stop => { s0 with log := s0.log ++ [.debug "trezor.loop" "%s finished" task] }
  | .raised e => { s0 with log := s0.log ++ [.exception "trezor.loop" e] }
  | .yielded r =>
      let s1 : LoopState :=
        match r with
        | .syscall sc => syscall_handle s0 sc task
        | .pynone => schedule_task s0 task Value.pynone none
        | v => { s0 with log := s0.log ++ [LogEvent.error "trezor.loop" "%s is unknown syscall" v] }
      if s1.hookSet then { s1 with hookRuns := s1.hookRuns + 1 } else s1

/-- The message branch of one `run_forever` iteration (src/trezor/loop.py
lines 103-109): `msg.select` returned `(msg_iface, *msg_value)`; pop the
whole Paused Table entry for `msg_iface`, then step each popped task with
the remaining value list. -/
def run_forever_msg (beh : Behavior) (s : LoopState) (msg_iface : Nat) (msg_value : List Atom) : LoopState :=
  let msg_tasks := (pausedLookup s.paused_tasks msg_iface).getD []
  let s1 := { s with paused_tasks := pausedPop s.paused_tasks msg_iface }
  msg_tasks.foldl (fun st task => step_task beh st task (.tup msg_value)) s1

/-- State of the workflow supervisor (src/trezor/workflow.py): the list
`_started` of foreground workflows, the optional running default task
`_default`, and the optional default factory `_default_genfunc`.  The
factory is represented by the task it instantiates; `wfClosed` is a ghost
record of `close()` calls.  (The `loop.schedule_task` and backlight calls
do not touch this registry and are elided here.) -/
structure WfState where
  started : List Task
  default_task : Option Task
  default_genfunc : Option Task
  wfClosed : List Task
deriving DecidableEq, Repr

/-- Embeds `start_default(genfunc)` (src/trezor/workflow.py lines 9-16): store
the factory, instantiate it into `_default`, and schedule the result. -/
def start_default (s : WfState) (genfunc : Task) : WfState :=
  { s with default_genfunc := some genfunc, default_task := some genfunc }

/-- Embeds `close_default()` (src/trezor/workflow.py lines 19-24): if a default
task exists, close it and clear the slot. -/
def close_default (s : WfState) : WfState :=
  match s.default_task with
  | some d => { s with default_task := none, wfClosed := s.wfClosed ++ [d] }
  | none => s

/-- Embeds `start(workflow)` (src/trezor/workflow.py lines 27-31): close the
default, append the workflow to `_started`, and schedule its `_wrap`. -/
def wfStart (s : WfState) (workflow : Task) : WfState :=
  let s1 := close_default s
  { s1 with started := s1.started ++ [workflow] }

/-- The `finally` block of `_wrap(workflow)` running on completion of the
workflow (src/trezor/workflow.py lines 38-41): remove it from `_started`;
if no foreground remains and a factory is set, restart the default. -/
def wrap_finish (s : WfState) (workflow : Task) : WfState :=
  let s1 := { s with started := s.started.erase workflow }
  if s1.started = [] then
    match s1.default_genfunc with
    | some g => start_default s1 g
    | none => s1
  else s1

/-- A supervisor operation, as enumerated by the claim: the public entry
points plus completion of a started workflow. -/
inductive WfOp where
  | startDefault (genfunc : Task)
  | closeDefault
  | start (workflow : Task)
  | finish (workflow : Task)
deriving DecidableEq, Repr

/-- Apply one supervisor operation. -/
def wfApply (s : WfState) : WfOp → WfState
  | .startDefault g => start_default s g
  | .closeDefault => close_default s
  | .start w => wfStart s w
  | .finish w => wrap_finish s w

/-- The module-initial supervisor state (src/trezor/workflow.py lines
4-6). -/
def wfInit : WfState :=
  ⟨[], none, none, []⟩

/-- Run a sequence of supervisor operations from the initial state. -/
def wfRun (ops : List WfOp) : WfState :=
  ops.foldl wfApply wfInit

/-- Exactly one of: a default task is running, or at least one foreground
task is running. -/
def wfExactlyOne (s : WfState) : Prop :=
  (s.default_task.isSome = true ∧ s.started = []) ∨ (s.default_task = none ∧ s.started ≠ [])

instance wfExactlyOne.instDecidable (s : WfState) : Decidable (wfExactlyOne s) := by
  unfold wfExactlyOne
  infer_instance

/-- Supervisor states reachable through the intended call pattern: one
initializing `start_default`, followed by `start` calls and completions
of started workflows (`close_default` occurs only inside `start`, and
`start_default` only at initialization or from `_wrap` on completion of
the last foreground workflow). -/
inductive WfReach : WfState → Prop where
  | init (g : Task) : WfReach (wfApply wfInit (.startDefault g))
  | stepStart (s : WfState) (w : Task) : WfReach s → WfReach (wfApply s (.start w))
  | stepFinish (s : WfState) (w : Task) : WfReach s → w ∈ s.started →
      WfReach (wfApply s (.finish w))

/-- The list of tasks paused on `iface` (empty when no entry exists). -/
def lookupTasks (p : PausedTab) (iface : Nat) : List Task :=
  (pausedLookup p iface).getD []

/-- A small concrete loop state used by the evaluation witnesses: time
100, empty queues, one empty signal object (id 0), one wait object
(id 0) with two scheduled wrapper children of which none has finished,
after-step hook installed. -/
def exState : LoopState where
  now := 100
  scheduled_tasks := [⟨5, .waitWrap 0 (.mk 1), .pynone⟩, ⟨6, .mk 9, .pynone⟩]
  paused_tasks := [(42, [.waitWrap 0 (.mk 2), .mk 9]), (7, [.mk 9])]
  signals := [(0, ⟨none, none⟩)]
  waits := [(0, { children := [.mk 1, .mk 2], wait_for := 1, exit_others := true,
                  scheduled := [.waitWrap 0 (.mk 1), .waitWrap 0 (.mk 2)],
                  finished := [], task := some (.mk 8) })]
  log := []
  hookSet := true
  hookRuns := 0
  stepTrace := []
  closed := []

/-- A task body that immediately finishes (raises `StopIteration`). -/
def exBehStop : Behavior := fun _ _ => .stop

/-- A task body that raises on every resume. -/
def exBehRaise : Behavior := fun _ _ => .raised ⟨"boom"⟩

/-- A task body that performs a bare `yield` (yields `None`). -/
def exBehNone : Behavior := fun _ _ => .yielded .pynone

/-- A task body that yields a value that is no syscall. -/
def exBehBad : Behavior := fun _ _ => .yielded (.num 7)

/-- A task body that re-registers on interface 42 at every resume. -/
def exBehSelect : Behavior := fun _ _ => .yielded (.syscall (.select 42))

/-! ## Helper lemmas: field preservation of the loop operations -/

lemma foldl_schedule_fields (l : List Task) (s : LoopState) :
    (l.foldl (fun st ct => schedule_task st ct Value.pynone none) s).log = s.log
    ∧ (l.foldl (fun st ct => schedule_task st ct Value.pynone none) s).hookSet = s.hookSet
    ∧ (l.foldl (fun st ct => schedule_task st ct Value.pynone none) s).hookRuns = s.hookRuns
    ∧ (l.foldl (fun st ct => schedule_task st ct Value.pynone none) s).stepTrace = s.stepTrace
    ∧ (l.foldl (fun st ct => schedule_task st ct Value.pynone none) s).now = s.now
    ∧ (l.foldl (fun st ct => schedule_task st ct Value.pynone none) s).closed = s.closed
    ∧ (l.foldl (fun st ct => schedule_task st ct Value.pynone none) s).paused_tasks = s.paused_tasks := by
  induction l generalizing s with
  | nil => exact ⟨rfl, rfl, rfl, rfl, rfl, rfl, rfl⟩
  | cons x xs ih => simpa [schedule_task] using ih (schedule_task s x Value.pynone none)

lemma signal_deliver_fields (s : LoopState) (sid : Nat) :
    (signal_deliver s sid).log = s.log
    ∧ (signal_deliver s sid).hookSet = s.hookSet
    ∧ (signal_deliver s sid).hookRuns = s.hookRuns
    ∧ (signal_deliver s sid).stepTrace = s.stepTrace
    ∧ (signal_deliver s sid).now = s.now
    ∧ (signal_deliver s sid).closed = s.closed
    ∧ (signal_deliver s sid).paused_tasks = s.paused_tasks
    ∧ (signal_deliver s sid).waits = s.waits := by
  unfold signal_deliver
  split
  · exact ⟨rfl, rfl, rfl, rfl, rfl, rfl, rfl, rfl⟩
  · split
    · exact ⟨rfl, rfl, rfl, rfl, rfl, rfl, rfl, rfl⟩
    · exact ⟨rfl, rfl, rfl, rfl, rfl, rfl, rfl, rfl⟩

lemma signal_handle_fields (s : LoopState) (sid : Nat) (t : Task) :
    (signal_handle s sid t).log = s.log
    ∧ (signal_handle s sid t).hookSet = s.hookSet
    ∧ (signal_handle s sid t).hookRuns = s.hookRuns
    ∧ (signal_handle s sid t).stepTrace = s.stepTrace
    ∧ (signal_handle s sid t).now = s.now
    ∧ (signal_handle s sid t).closed = s.closed
    ∧ (signal_handle s sid t).paused_tasks = s.paused_tasks
    ∧ (signal_handle s sid t).waits = s.waits := by
  unfold signal_handle
  split
  · exact ⟨rfl, rfl, rfl, rfl, rfl, rfl, rfl, rfl⟩
  · exact signal_deliver_fields _ sid

lemma wait_handle_fields (s : LoopState) (wid : Nat) (t : Task) :
    (wait_handle s wid t).log = s.log
    ∧ (wait_handle s wid t).hookSet = s.hookSet
    ∧ (wait_handle s wid t).hookRuns = s.hookRuns
    ∧ (wait_handle s wid t).stepTrace = s.stepTrace
    ∧ (wait_handle s wid t).now = s.now
    ∧ (wait_handle s wid t).closed = s.closed
    ∧ (wait_handle s wid t).paused_tasks = s.paused_tasks := by
  unfold wait_handle
  split
  · exact ⟨rfl, rfl, rfl, rfl, rfl, rfl, rfl⟩
  · exact foldl_schedule_fields _ _

lemma syscall_handle_fields (s : LoopState) (sc : SyscallRef) (t : Task) :
    (syscall_handle s sc t).log = s.log
    ∧ (syscall_handle s sc t).hookSet = s.hookSet
    ∧ (syscall_handle s sc t).hookRuns = s.hookRuns
    ∧ (syscall_handle s sc t).stepTrace = s.stepTrace
    ∧ (syscall_handle s sc t).now = s.now
    ∧ (syscall_handle s sc t).closed = s.closed := by
  cases sc with
  | sleep delayUs => exact ⟨rfl, rfl, rfl, rfl, rfl, rfl⟩
  | select msgIface => exact ⟨rfl, rfl, rfl, rfl, rfl, rfl⟩
  | signal sid =>
      obtain ⟨h1, h2, h3, h4, h5, h6, _, _⟩ := signal_handle_fields s sid t
      exact ⟨h1, h2, h3, h4, h5, h6⟩
  | wait wid =>
      obtain ⟨h1, h2, h3, h4, h5, h6, _⟩ := wait_handle_fields s wid t
      exact ⟨h1, h2, h3, h4, h5, h6⟩

lemma sigLookup_set_self (sigs : List (Nat × SignalState)) (sid : Nat) (sg : SignalState) :
    sigLookup (sigSet sigs sid sg) sid = (sigLookup sigs sid).map (fun _ => sg) := by
  induction sigs with
  | nil => rfl
  | cons p rest ih =>
      obtain ⟨a, b⟩ := p
      by_cases h : a = sid
      · subst h
        simp [sigSet, sigLookup]
      · simp [sigSet, sigLookup, h, ih]

lemma mem_timeqPush (q : TimeQ) (e x : Entry) :
    x ∈ timeqPush q e ↔ x ∈ q ∨ x = e := by
  induction q with
  | nil => simp [timeqPush]
  | cons y ys ih =>
      by_cases h : tle y.deadline e.deadline
      · simp [timeqPush, h, ih]
        tauto
      · simp [timeqPush, h]
        tauto

lemma timeqTasks_push (q : TimeQ) (e : Entry) (t : Task) :
    t ∈ timeqTasks (timeqPush q e) ↔ t ∈ timeqTasks q ∨ t = e.task := by
  simp only [timeqTasks, List.mem_map]
  constructor
  · rintro ⟨x, hx, rfl⟩
    rcases (mem_timeqPush q e x).1 hx with h | rfl
    · exact Or.inl ⟨x, h, rfl⟩
    · exact Or.inr rfl
  · rintro (⟨x, hx, rfl⟩ | rfl)
    · exact ⟨x, (mem_timeqPush q e x).2 (Or.inl hx), rfl⟩
    · exact ⟨e, (mem_timeqPush q e e).2 (Or.inr rfl), rfl⟩

lemma signal_deliver_both (s : LoopState) (sid : Nat) (t : Task) (v : Value)
    (hsig : sigLookup s.signals sid = some ⟨some v, some t⟩) :
    signal_deliver s sid
      = { s with scheduled_tasks := timeqPush s.scheduled_tasks ⟨s.now, t, v⟩,
                 signals := sigSet s.signals sid ⟨none, none⟩ } := by
  unfold signal_deliver
  rw [hsig]
  rfl

lemma signal_deliver_task_none (s : LoopState) (sid : Nat) (sg : SignalState)
    (hsig : sigLookup s.signals sid = some sg) (h : sg.task = none) :
    signal_deliver s sid = s := by
  obtain ⟨sgv, sgt⟩ := sg
  cases h
  unfold signal_deliver
  rw [hsig]

lemma signal_deliver_value_none (s : LoopState) (sid : Nat) (sg : SignalState)
    (hsig : sigLookup s.signals sid = some sg) (h : sg.value = none) :
    signal_deliver s sid = s := by
  obtain ⟨sgv, sgt⟩ := sg
  cases h
  unfold signal_deliver
  rw [hsig]
  cases sgt <;> rfl

lemma signal_send_eq (s : LoopState) (sid : Nat) (sg : SignalState) (x : Value)
    (hsig : sigLookup s.signals sid = some sg) :
    signal_send s sid x
      = signal_deliver { s with signals := sigSet s.signals sid ⟨some x, sg.task⟩ } sid := by
  unfold signal_send
  rw [hsig]

lemma signal_handle_eq (s : LoopState) (sid : Nat) (sg : SignalState) (t : Task)
    (hsig : sigLookup s.signals sid = some sg) :
    signal_handle s sid t
      = signal_deliver { s with signals := sigSet s.signals sid ⟨sg.value, some t⟩ } sid := by
  unfold signal_handle
  rw [hsig]

lemma signal_send_of_task_none (s : LoopState) (sid : Nat) (sg : SignalState) (x : Value)
    (hsig : sigLookup s.signals sid = some sg) (ht : sg.task = none) :
    signal_send s sid x = { s with signals := sigSet s.signals sid ⟨some x, none⟩ } := by
  rw [signal_send_eq s sid sg x hsig, ht]
  exact signal_deliver_task_none _ sid ⟨some x, none⟩ (by simp [sigLookup_set_self, hsig]) rfl

lemma signal_handle_of_value_none (s : LoopState) (sid : Nat) (sg : SignalState) (t : Task)
    (hsig : sigLookup s.signals sid = some sg) (hv : sg.value = none) :
    signal_handle s sid t = { s with signals := sigSet s.signals sid ⟨none, some t⟩ } := by
  rw [signal_handle_eq s sid sg t hsig, hv]
  exact signal_deliver_value_none _ sid ⟨none, some t⟩ (by simp [sigLookup_set_self, hsig]) rfl

lemma tle_total (a b : Nat) : tle a b = true ∨ tle b a = true := by
  simp only [tle, decide_eq_true_eq, ticksDiff]
  omega

lemma timeqPush_append_of_all_le (q : TimeQ) (e : Entry)
    (h : ∀ x ∈ q, tle x.deadline e.deadline = true) :
    timeqPush q e = q ++ [e] := by
  induction q with
  | nil => rfl
  | cons x xs ih =>
      rw [show timeqPush (x :: xs) e
            = if tle x.deadline e.deadline then x :: timeqPush xs e else e :: x :: xs from rfl]
      rw [if_pos (h x (by simp))]
      rw [ih (fun y hy => h y (by simp [hy]))]
      rfl

lemma unschedule_go_eq_filter (t : Task) (l : TimeQ) :
    ∀ acc : TimeQ,
      (acc ++ l.filter (fun x => decide (x.task ≠ t))).Pairwise
        (fun x y => tle x.deadline y.deadline = true) →
      unschedule_go t l acc = acc ++ l.filter (fun x => decide (x.task ≠ t)) := by
  induction l with
  | nil =>
      intro acc h
      simp [unschedule_go]
  | cons e rest ih =>
      intro acc h
      show unschedule_go t rest (if e.task = t then acc else timeqPush acc e)
        = acc ++ (e :: rest).filter (fun x => decide (x.task ≠ t))
      by_cases he : e.task = t
      · have hf : (e :: rest).filter (fun x => decide (x.task ≠ t))
            = rest.filter (fun x => decide (x.task ≠ t)) := by simp [he]
        rw [hf] at h ⊢
        rw [if_pos he]
        exact ih acc h
      · have hf : (e :: rest).filter (fun x => decide (x.task ≠ t))
            = e :: rest.filter (fun x => decide (x.task ≠ t)) := by simp [he]
        rw [hf] at h ⊢
        have hacc : ∀ x ∈ acc, tle x.deadline e.deadline = true := by
          rw [List.pairwise_append] at h
          intro x hx
          exact h.2.2 x hx e (by simp)
        rw [if_neg he, timeqPush_append_of_all_le acc e hacc]
        have h2 : ((acc ++ [e]) ++ rest.filter (fun x => decide (x.task ≠ t))).Pairwise
            (fun x y => tle x.deadline y.deadline = true) := by
          simpa using h
        rw [ih (acc ++ [e]) h2]
        simp

lemma filter_timeqPush (q : TimeQ) (e : Entry) (t : Task)
    (he : e.task = t) (hq : ∀ x ∈ q, x.task ≠ t) :
    (timeqPush q e).filter (fun x => decide (x.task ≠ t)) = q := by
  induction q with
  | nil => simp [timeqPush, he]
  | cons x xs ih =>
      rw [show timeqPush (x :: xs) e
            = if tle x.deadline e.deadline then x :: timeqPush xs e else e :: x :: xs from rfl]
      by_cases hle : tle x.deadline e.deadline = true
      · rw [if_pos hle]
        rw [List.filter_cons_of_pos (by simp [hq x (by simp)])]
        rw [ih (fun y hy => hq y (by simp [hy]))]
      · rw [if_neg hle]
        rw [List.filter_cons_of_neg (by simp [he])]
        apply List.filter_eq_self.mpr
        intro y hy
        simp [hq y hy]

lemma mem_unschedule_go (t : Task) (l : TimeQ) :
    ∀ acc x, x ∈ unschedule_go t l acc → x ∈ acc ∨ (x ∈ l ∧ x.task ≠ t) := by
  induction l with
  | nil =>
      intro acc x hx
      exact Or.inl (by simpa [unschedule_go] using hx)
  | cons e rest ih =>
      intro acc x hx
      rw [show unschedule_go t (e :: rest) acc
            = unschedule_go t rest (if e.task = t then acc else timeqPush acc e) from rfl] at hx
      rcases ih _ x hx with hacc | ⟨hrest, hne⟩
      · by_cases he : e.task = t
        · rw [if_pos he] at hacc
          exact Or.inl hacc
        · rw [if_neg he] at hacc
          rcases (mem_timeqPush acc e x).1 hacc with h0 | rfl
          · exact Or.inl h0
          · exact Or.inr ⟨by simp, he⟩
      · exact Or.inr ⟨by simp [hrest], hne⟩

lemma not_mem_tasks_timeqUnschedule (t : Task) (q : TimeQ) :
    t ∉ timeqTasks (timeqUnschedule t q) := by
  intro h
  simp only [timeqTasks, List.mem_map] at h
  obtain ⟨x, hx, hxt⟩ := h
  rcases mem_unschedule_go t q [] x hx with h0 | ⟨-, hne⟩
  · simp at h0
  · exact hne hxt

lemma pausedLookup_insert (p : PausedTab) (task : Task) (i j : Nat) :
    pausedLookup (pausedInsert p task i) j
      = if j = i then some (lookupTasks p i ++ [task]) else pausedLookup p j := by
  induction p with
  | nil =>
      by_cases h : j = i
      · subst h
        simp [pausedInsert, pausedLookup, lookupTasks]
      · have h2 : ¬i = j := fun hc => h (Eq.symm hc)
        simp [pausedInsert, pausedLookup, h, h2]
  | cons pr rest ih =>
      obtain ⟨k, ts⟩ := pr
      by_cases hk : k = i
      · subst hk
        by_cases h : k = j
        · subst h
          simp [pausedInsert, pausedLookup, lookupTasks]
        · have h2 : ¬j = k := fun hc => h (Eq.symm hc)
          simp [pausedInsert, pausedLookup, h, h2]
      · by_cases h : k = j
        · subst h
          have h2 : ¬k = i := hk
          have h3 : ¬i = k := fun hc => hk (Eq.symm hc)
          simp [pausedInsert, pausedLookup, h2, h3]
        · simp [pausedInsert, pausedLookup, hk, h, ih]
          by_cases hji : j = i
          · have h3 : ¬k = i := hk
            simp [hji, lookupTasks, pausedLookup, h3]
          · simp [hji]

lemma pausedLookup_none_of_not_mem_keys (p : PausedTab) (i : Nat)
    (h : i ∉ p.map Prod.fst) : pausedLookup p i = none := by
  induction p with
  | nil => rfl
  | cons pr rest ih =>
      obtain ⟨k, ts⟩ := pr
      simp only [List.map_cons, List.mem_cons] at h
      push_neg at h
      have h2 : ¬k = i := fun hc => h.1 (Eq.symm hc)
      simp [pausedLookup, h2, ih h.2]

lemma pausedPop_lookup_self (p : PausedTab) (i : Nat)
    (hkeys : (p.map Prod.fst).Nodup) : pausedLookup (pausedPop p i) i = none := by
  induction p with
  | nil => rfl
  | cons pr rest ih =>
      obtain ⟨k, ts⟩ := pr
      simp only [List.map_cons, List.nodup_cons] at hkeys
      by_cases hk : k = i
      · subst hk
        simp only [pausedPop, if_pos rfl]
        exact pausedLookup_none_of_not_mem_keys rest k hkeys.1
      · simp [pausedPop, hk, pausedLookup, ih hkeys.2]

lemma pausedPop_lookup_ne (p : PausedTab) (i j : Nat) (h : j ≠ i) :
    pausedLookup (pausedPop p i) j = pausedLookup p j := by
  induction p with
  | nil => rfl
  | cons pr rest ih =>
      obtain ⟨k, ts⟩ := pr
      by_cases hk : k = i
      · subst hk
        have h2 : ¬k = j := fun hc => h (Eq.symm hc)
        simp [pausedPop, pausedLookup, h2]
      · simp [pausedPop, hk, pausedLookup, ih]

lemma pausedPop_of_lookup_none (p : PausedTab) (i : Nat)
    (h : pausedLookup p i = none) : pausedPop p i = p := by
  induction p with
  | nil => rfl
  | cons pr rest ih =>
      obtain ⟨k, ts⟩ := pr
      by_cases hk : k = i
      · subst hk
        simp [pausedLookup] at h
      · simp only [pausedLookup, if_neg hk] at h
        simp [pausedPop, hk, ih h]

lemma step_task_trace (beh : Behavior) (s : LoopState) (task : Task) (value : Value) :
    (step_task beh s task value).stepTrace = s.stepTrace ++ [(task, value)] := by
  cases hout : step_outcome beh task value with
  | stop => simp [step_task, hout]
  | raised e => simp [step_task, hout]
  | yielded r =>
      cases r with
      | syscall sc =>
          obtain ⟨-, -, -, h4, -, -⟩ :=
            syscall_handle_fields ({ s with stepTrace := s.stepTrace ++ [(task, value)] }) sc task
          simp [step_task, hout, h4, apply_ite LoopState.stepTrace]
      | pynone => simp [step_task, hout, schedule_task, apply_ite LoopState.stepTrace]
      | num n => simp [step_task, hout, apply_ite LoopState.stepTrace]
      | str a => simp [step_task, hout, apply_ite LoopState.stepTrace]
      | tup vs => simp [step_task, hout, apply_ite LoopState.stepTrace]
      | exc e2 => simp [step_task, hout, apply_ite LoopState.stepTrace]

lemma step_task_paused_extends (beh : Behavior) (s : LoopState) (task : Task) (value : Value)
    (j : Nat) :
    ∃ ext, lookupTasks (step_task beh s task value).paused_tasks j
      = lookupTasks s.paused_tasks j ++ ext := by
  cases hout : step_outcome beh task value with
  | stop => exact ⟨[], by simp [step_task, hout, lookupTasks]⟩
  | raised e => exact ⟨[], by simp [step_task, hout, lookupTasks]⟩
  | yielded r =>
      cases r with
      | syscall sc =>
          cases sc with
          | sleep delayUs =>
              exact ⟨[], by simp [step_task, hout, syscall_handle, sleep_handle, schedule_task,
                lookupTasks, apply_ite LoopState.paused_tasks]⟩
          | select msgIface =>
              by_cases hj : j = msgIface
              · subst hj
                refine ⟨[task], ?_⟩
                simp [step_task, hout, syscall_handle, pause_task,
                  apply_ite LoopState.paused_tasks, lookupTasks, pausedLookup_insert]
              · refine ⟨[], ?_⟩
                simp [step_task, hout, syscall_handle, pause_task,
                  apply_ite LoopState.paused_tasks, lookupTasks, pausedLookup_insert, hj]
          | signal sid =>
              obtain ⟨-, -, -, -, -, -, h7, -⟩ :=
                signal_handle_fields ({ s with stepTrace := s.stepTrace ++ [(task, value)] }) sid task
              exact ⟨[], by simp [step_task, hout, syscall_handle, h7,
                apply_ite LoopState.paused_tasks, lookupTasks]⟩
          | wait wid =>
              obtain ⟨-, -, -, -, -, -, h7⟩ :=
                wait_handle_fields ({ s with stepTrace := s.stepTrace ++ [(task, value)] }) wid task
              exact ⟨[], by simp [step_task, hout, syscall_handle, h7,
                apply_ite LoopState.paused_tasks, lookupTasks]⟩
      | pynone =>
          exact ⟨[], by simp [step_task, hout, schedule_task, lookupTasks,
            apply_ite LoopState.paused_tasks]⟩
      | num n => exact ⟨[], by simp [step_task, hout, lookupTasks, apply_ite LoopState.paused_tasks]⟩
      | str a => exact ⟨[], by simp [step_task, hout, lookupTasks, apply_ite LoopState.paused_tasks]⟩
      | tup vs => exact ⟨[], by simp [step_task, hout, lookupTasks, apply_ite LoopState.paused_tasks]⟩
      | exc e2 => exact ⟨[], by simp [step_task, hout, lookupTasks, apply_ite LoopState.paused_tasks]⟩

lemma foldl_step_trace (beh : Behavior) (vs : List Atom) (l : List Task) :
    ∀ s : LoopState,
      (l.foldl (fun st task => step_task beh st task (Value.tup vs)) s).stepTrace
        = s.stepTrace ++ l.map (fun t => (t, Value.tup vs)) := by
  induction l with
  | nil => intro s; simp
  | cons x xs ih =>
      intro s
      rw [List.foldl_cons, ih, step_task_trace]
      simp

lemma foldl_step_paused_extends (beh : Behavior) (vs : List Atom) (l : List Task) :
    ∀ (s : LoopState) (j : Nat), ∃ ext,
      lookupTasks ((l.foldl (fun st task => step_task beh st task (Value.tup vs)) s)).paused_tasks j
        = lookupTasks s.paused_tasks j ++ ext := by
  induction l with
  | nil => intro s j; exact ⟨[], by simp⟩
  | cons x xs ih =>
      intro s j
      obtain ⟨e1, h1⟩ := step_task_paused_extends beh s x (Value.tup vs) j
      obtain ⟨e2, h2⟩ := ih (step_task beh s x (Value.tup vs)) j
      exact ⟨e1 ++ e2, by rw [List.foldl_cons, h2, h1, List.append_assoc]⟩

lemma wait_exit_step_skip (fin : List Task) (st : LoopState) (t : Task) (h : t ∈ fin) :
    wait_exit_step fin st t = st := by
  unfold wait_exit_step
  rw [if_pos h]

lemma wait_exit_step_eq (fin : List Task) (st : LoopState) (t : Task) (h : t ∉ fin) :
    wait_exit_step fin st t
      = { st with paused_tasks := pausedEraseTask st.paused_tasks t,
                  scheduled_tasks := timeqUnschedule t st.scheduled_tasks,
                  closed := st.closed ++ [t] } := by
  unfold wait_exit_step
  rw [if_neg h]
  rfl

lemma wait_exit_step_preserves (fin : List Task) (child t : Task) (st : LoopState)
    (h1 : child ∉ timeqTasks st.scheduled_tasks)
    (h2 : ∀ pr ∈ st.paused_tasks, child ∉ pr.2)
    (h3 : child ∈ st.closed) :
    child ∉ timeqTasks (wait_exit_step fin st t).scheduled_tasks
    ∧ (∀ pr ∈ (wait_exit_step fin st t).paused_tasks, child ∉ pr.2)
    ∧ child ∈ (wait_exit_step fin st t).closed := by
  by_cases hf : t ∈ fin
  · rw [wait_exit_step_skip fin st t hf]
    exact ⟨h1, h2, h3⟩
  · rw [wait_exit_step_eq fin st t hf]
    refine ⟨?_, ?_, ?_⟩
    · intro hmem
      simp only [timeqTasks, List.mem_map] at hmem
      obtain ⟨x, hx, hxt⟩ := hmem
      rcases mem_unschedule_go t st.scheduled_tasks [] x hx with h0 | ⟨hq, -⟩
      · simp at h0
      · exact h1 (List.mem_map.mpr ⟨x, hq, hxt⟩)
    · intro pr hpr
      simp only [pausedEraseTask, List.mem_map] at hpr
      obtain ⟨pr0, hpr0, rfl⟩ := hpr
      intro hc
      exact h2 pr0 hpr0 (List.mem_of_mem_erase hc)
    · simp [h3]

lemma wait_exit_step_establishes (fin : List Task) (child : Task) (st : LoopState)
    (hnf : child ∉ fin)
    (hnodup : ∀ pr ∈ st.paused_tasks, pr.2.Nodup) :
    child ∉ timeqTasks (wait_exit_step fin st child).scheduled_tasks
    ∧ (∀ pr ∈ (wait_exit_step fin st child).paused_tasks, child ∉ pr.2)
    ∧ child ∈ (wait_exit_step fin st child).closed := by
  rw [wait_exit_step_eq fin st child hnf]
  refine ⟨?_, ?_, ?_⟩
  · exact not_mem_tasks_timeqUnschedule child st.scheduled_tasks
  · intro pr hpr
    simp only [pausedEraseTask, List.mem_map] at hpr
    obtain ⟨pr0, hpr0, rfl⟩ := hpr
    intro hc
    exact ((List.Nodup.mem_erase_iff (hnodup pr0 hpr0)).1 hc).1 rfl
  · simp

lemma wait_exit_step_nodup (fin : List Task) (t : Task) (st : LoopState)
    (h : ∀ pr ∈ st.paused_tasks, pr.2.Nodup) :
    ∀ pr ∈ (wait_exit_step fin st t).paused_tasks, pr.2.Nodup := by
  by_cases hf : t ∈ fin
  · rw [wait_exit_step_skip fin st t hf]
    exact h
  · rw [wait_exit_step_eq fin st t hf]
    intro pr hpr
    simp only [pausedEraseTask, List.mem_map] at hpr
    obtain ⟨pr0, hpr0, rfl⟩ := hpr
    exact (h pr0 hpr0).erase t

lemma foldl_wait_exit_preserves (fin : List Task) (child : Task) (l : List Task) :
    ∀ st : LoopState,
      child ∉ timeqTasks st.scheduled_tasks →
      (∀ pr ∈ st.paused_tasks, child ∉ pr.2) →
      child ∈ st.closed →
      child ∉ timeqTasks (l.foldl (wait_exit_step fin) st).scheduled_tasks
      ∧ (∀ pr ∈ (l.foldl (wait_exit_step fin) st).paused_tasks, child ∉ pr.2)
      ∧ child ∈ (l.foldl (wait_exit_step fin) st).closed := by
  induction l with
  | nil =>
      intro st h1 h2 h3
      exact ⟨h1, h2, h3⟩
  | cons x xs ih =>
      intro st h1 h2 h3
      obtain ⟨g1, g2, g3⟩ := wait_exit_step_preserves fin child x st h1 h2 h3
      exact ih (wait_exit_step fin st x) g1 g2 g3

lemma foldl_wait_exit_clears (fin : List Task) (child : Task) (l : List Task) :
    ∀ st : LoopState,
      (∀ pr ∈ st.paused_tasks, pr.2.Nodup) →
      child ∈ l → child ∉ fin →
      child ∉ timeqTasks (l.foldl (wait_exit_step fin) st).scheduled_tasks
      ∧ (∀ pr ∈ (l.foldl (wait_exit_step fin) st).paused_tasks, child ∉ pr.2)
      ∧ child ∈ (l.foldl (wait_exit_step fin) st).closed := by
  induction l with
  | nil =>
      intro st _ hmem _
      exact absurd hmem (List.not_mem_nil child)
  | cons x xs ih =>
      intro st hnodup hmem hnf
      by_cases hx : child ∈ xs
      · exact ih (wait_exit_step fin st x) (wait_exit_step_nodup fin x st hnodup) hx hnf
      · have hxc : x = child := by
          rcases List.mem_cons.1 hmem with h | h
          · exact h.symm
          · exact absurd h hx
        subst hxc
        obtain ⟨g1, g2, g3⟩ := wait_exit_step_establishes fin x st hnf hnodup
        exact foldl_wait_exit_preserves fin x xs (wait_exit_step fin st x) g1 g2 g3

/-! ## Theorems for the claims -/

/-- C6: for every task and every `delay_us` (including 0),
`Sleep(delay_us).handle(task)` computes the wrap-aware deadline
`ticks_add(now, delay_us)` and pushes the entry
`(deadline, task, deadline)` onto the Time Queue, so the value the task
is later resumed with equals the scheduling deadline; with
`delay_us = 0` the deadline equals the current time (`now` being a valid
32-bit tick value). -/
theorem sleep_handle_pushes_deadline (s : LoopState) (delayUs : Nat) (task : Task) :
    (sleep_handle s delayUs task).scheduled_tasks
      = timeqPush s.scheduled_tasks ⟨ticksAdd s.now delayUs, task, .num (ticksAdd s.now delayUs)⟩
    ∧ (delayUs = 0 → s.now < 2 ^ 32 → ticksAdd s.now delayUs = s.now) := by
  refine ⟨rfl, ?_⟩
  rintro rfl h
  simp only [ticksAdd, Nat.add_zero]
  omega

/-- Witness for C6 at a concrete state: `Sleep(0)` pushes
`(now, task, now)`. -/
theorem sleep_handle_pushes_deadline_witness :
    (sleep_handle exState 0 (.mk 4)).scheduled_tasks
      = timeqPush exState.scheduled_tasks ⟨ticksAdd exState.now 0, .mk 4, .num (ticksAdd exState.now 0)⟩
    ∧ ticksAdd exState.now 0 = exState.now := by
  have h := sleep_handle_pushes_deadline exState 0 (.mk 4)
  exact ⟨h.1, h.2 rfl (by decide)⟩

/-- C1 (amended): if stepping a task raises a failure, `_step_task`
appends the record of `log.exception(__name__, e)` — logged at ERROR
level 40 and carrying the failure, though not the task identity — and
ceases tracking the task: the Time Queue, Paused Table, signal store,
wait store and close record are all left untouched.  `step_task` is a
total function into `LoopState`, so the failure does not propagate to
the caller (`run_forever`). -/
theorem step_task_raised_dropped (beh : Behavior) (s : LoopState) (task : Task) (value : Value)
    (e : Exc) (hout : step_outcome beh task value = .raised e) :
    (step_task beh s task value).log = s.log ++ [.exception "trezor.loop" e]
    ∧ (LogEvent.exception "trezor.loop" e).level = 40
    ∧ (step_task beh s task value).scheduled_tasks = s.scheduled_tasks
    ∧ (step_task beh s task value).paused_tasks = s.paused_tasks
    ∧ (step_task beh s task value).signals = s.signals
    ∧ (step_task beh s task value).waits = s.waits
    ∧ (step_task beh s task value).closed = s.closed
    ∧ (step_task beh s task value).hookRuns = s.hookRuns := by
  unfold step_task
  rw [hout]
  exact ⟨rfl, rfl, rfl, rfl, rfl, rfl, rfl, rfl⟩

/-- Witness for C1 at a concrete raising task: the step leaves the
Paused Table and Time Queue unchanged and logs the failure. -/
theorem step_task_raised_dropped_witness :
    (step_task exBehRaise exState (.mk 0) .pynone).log
        = exState.log ++ [.exception "trezor.loop" ⟨"boom"⟩]
    ∧ (step_task exBehRaise exState (.mk 0) .pynone).scheduled_tasks
        = exState.scheduled_tasks := by
  have h := step_task_raised_dropped exBehRaise exState (.mk 0) .pynone ⟨"boom"⟩ rfl
  exact ⟨h.1, h.2.2.1⟩

/-- C1 counterexample to the claim as stated: at a concrete raising step
the appended log record is `log.exception("trezor.loop", e)` — the call
in src/trezor/loop.py line 126 passes only the module name and the
exception, so no record of the step carries the task identity. -/
theorem step_task_raised_log_lacks_task :
    (step_task exBehRaise exState (.mk 0) .pynone).log
        = [LogEvent.exception "trezor.loop" ⟨"boom"⟩]
    ∧ ∀ ev ∈ (step_task exBehRaise exState (.mk 0) .pynone).log, ev.taskArg = none := by
  decide

/-- C2 (amended): `after_step_hook`, when set, is invoked after exactly
the steps in which the task yielded a value (a syscall, the bare-yield
sentinel, or an unknown value); it is not invoked when the task returned
normally or raised, because the hook call sits in the `else` clause of
the `try` statement in `_step_task` (src/trezor/loop.py lines 127-135). -/
theorem step_task_hook_iff (beh : Behavior) (s : LoopState) (task : Task) (value : Value) :
    (step_task beh s task value).hookRuns
      = (match step_outcome beh task value with
         | .yielded _ => if s.hookSet then s.hookRuns + 1 else s.hookRuns
         | _ => s.hookRuns) := by
  cases hout : step_outcome beh task value with
  | stop => simp [step_task, hout]
  | raised e => simp [step_task, hout]
  | yielded r =>
      cases r with
      | syscall sc =>
          obtain ⟨-, h2, h3, -, -, -⟩ :=
            syscall_handle_fields ({ s with stepTrace := s.stepTrace ++ [(task, value)] }) sc task
          simp [step_task, hout, h2, h3, apply_ite LoopState.hookRuns]
      | pynone => simp [step_task, hout, schedule_task, apply_ite LoopState.hookRuns]
      | num n => simp [step_task, hout, apply_ite LoopState.hookRuns]
      | str a => simp [step_task, hout, apply_ite LoopState.hookRuns]
      | tup vs => simp [step_task, hout, apply_ite LoopState.hookRuns]
      | exc e2 => simp [step_task, hout, apply_ite LoopState.hookRuns]

/-- C2 counterexample to the claim as stated: at a concrete step in
which the task returns normally (`StopIteration`), the installed hook is
not invoked (the invocation count stays 0). -/
theorem step_task_stop_hook_not_invoked :
    exState.hookSet = true
    ∧ exState.hookRuns = 0
    ∧ (step_task exBehStop exState (.mk 0) .pynone).hookRuns = 0 := by
  decide

/-- C8: if a stepped task yields the no-syscall sentinel `None` (a bare
yield), `_step_task` reschedules it on the Time Queue at deadline `now`
with resume value `None`; if it yields any value that is neither a
`Syscall` nor `None`, an ERROR-level record is logged and the task is
dropped: neither the Time Queue nor the Paused Table gains it. -/
theorem step_task_yield_outcomes (beh : Behavior) (s : LoopState) (task : Task) (value : Value) :
    (step_outcome beh task value = .yielded .pynone →
        (step_task beh s task value).scheduled_tasks
            = timeqPush s.scheduled_tasks ⟨s.now, task, .pynone⟩
        ∧ (step_task beh s task value).paused_tasks = s.paused_tasks
        ∧ (step_task beh s task value).log = s.log)
    ∧ ∀ r, step_outcome beh task value = .yielded r → (∀ sc, r ≠ .syscall sc) →
        r ≠ .pynone →
        (step_task beh s task value).log
            = s.log ++ [LogEvent.error "trezor.loop" "%s is unknown syscall" r]
        ∧ (LogEvent.error "trezor.loop" "%s is unknown syscall" r).level = 40
        ∧ (step_task beh s task value).scheduled_tasks = s.scheduled_tasks
        ∧ (step_task beh s task value).paused_tasks = s.paused_tasks := by
  constructor
  · intro hout
    refine ⟨?_, ?_, ?_⟩ <;>
      simp [step_task, hout, schedule_task, apply_ite LoopState.scheduled_tasks,
        apply_ite LoopState.paused_tasks, apply_ite LoopState.log]
  · intro r hout hsc hnone
    cases r with
    | syscall sc => exact absurd rfl (hsc sc)
    | pynone => exact absurd rfl hnone
    | num n =>
        refine ⟨?_, rfl, ?_, ?_⟩ <;>
          simp [step_task, hout, apply_ite LoopState.scheduled_tasks,
            apply_ite LoopState.paused_tasks, apply_ite LoopState.log]
    | str a =>
        refine ⟨?_, rfl, ?_, ?_⟩ <;>
          simp [step_task, hout, apply_ite LoopState.scheduled_tasks,
            apply_ite LoopState.paused_tasks, apply_ite LoopState.log]
    | tup vs =>
        refine ⟨?_, rfl, ?_, ?_⟩ <;>
          simp [step_task, hout, apply_ite LoopState.scheduled_tasks,
            apply_ite LoopState.paused_tasks, apply_ite LoopState.log]
    | exc e2 =>
        refine ⟨?_, rfl, ?_, ?_⟩ <;>
          simp [step_task, hout, apply_ite LoopState.scheduled_tasks,
            apply_ite LoopState.paused_tasks, apply_ite LoopState.log]

lemma wf_reach_invariant (s : WfState) (h : WfReach s) :
    wfExactlyOne s ∧ s.default_genfunc.isSome = true := by
  induction h with
  | init g => exact ⟨Or.inl ⟨rfl, rfl⟩, rfl⟩
  | stepStart s w hs ih =>
      refine ⟨Or.inr ⟨?_, ?_⟩, ?_⟩
      · show (wfStart s w).default_task = none
        unfold wfStart close_default
        cases hd : s.default_task
        · simpa using hd
        · rfl
      · show (wfStart s w).started ≠ []
        unfold wfStart close_default
        cases hd : s.default_task <;> simp
      · show (wfStart s w).default_genfunc.isSome = true
        unfold wfStart close_default
        cases hd : s.default_task <;> simpa using ih.2
  | stepFinish s w hs hw ih =>
      by_cases hempty : s.started.erase w = []
      · obtain ⟨g, hg⟩ := Option.isSome_iff_exists.1 ih.2
        refine ⟨Or.inl ⟨?_, ?_⟩, ?_⟩
        · show (wrap_finish s w).default_task.isSome = true
          unfold wrap_finish
          simp [hempty, hg, start_default]
        · show (wrap_finish s w).started = []
          unfold wrap_finish
          simp [hempty, hg, start_default]
        · show (wrap_finish s w).default_genfunc.isSome = true
          unfold wrap_finish
          simp [hempty, hg, start_default]
      · have hdef : s.default_task = none := by
          rcases ih.1 with ⟨h1, h2⟩ | ⟨h1, h2⟩
          · rw [h2] at hw
            exact absurd hw (List.not_mem_nil w)
          · exact h1
        refine ⟨Or.inr ⟨?_, ?_⟩, ?_⟩
        · show (wrap_finish s w).default_task = none
          unfold wrap_finish
          simp [hempty, hdef]
        · show (wrap_finish s w).started ≠ []
          unfold wrap_finish
          simp [hempty]
        · show (wrap_finish s w).default_genfunc.isSome = true
          unfold wrap_finish
          simp [hempty, ih.2]

/-- C5 (amended): along the supervisor's intended call pattern — one
initializing `start_default`, then any interleaving of `start` calls and
completions of started workflows, `close_default` occurring only inside
`start` and `start_default` only inside the completion handler `_wrap` —
every reachable registry state has exactly one of: a default task
running, or at least one foreground task running; never both, never
neither. -/
theorem workflow_invariant (s : WfState) (h : WfReach s) : wfExactlyOne s :=
  (wf_reach_invariant s h).1

/-- Witness for C5: the state right after initialization satisfies the
invariant. -/
theorem workflow_invariant_witness :
    wfExactlyOne (wfApply wfInit (WfOp.startDefault (Task.mk 0))) :=
  workflow_invariant _ (WfReach.init (Task.mk 0))

/-- C5 counterexample to the claim as stated: the claim quantifies over
every sequence of the supervisor operations including `close_default`,
but calling `start_default` and then `close_default` leaves a state with
no default task and no foreground task — neither side of the
exactly-one disjunction holds. -/
theorem workflow_close_default_breaks_invariant :
    ¬ wfExactlyOne (wfRun [.startDefault (.mk 0), .closeDefault])
    ∧ (wfRun [.startDefault (.mk 0), .closeDefault]).default_task = none
    ∧ (wfRun [.startDefault (.mk 0), .closeDefault]).started = [] := by
  decide

/-- C4: after `Wait.exit()` returns — it is called both on reaching the
completion threshold with `exit_others` true (`Wait._finish`,
src/trezor/loop.py lines 286-288) and when the waiting parent is
cancelled at its suspend point (`Wait.__iter__`, lines 292-299), and
this theorem covers any invocation — every spawned child of the Wait
that is not in the `finished` list is gone from the Time Queue, gone
from every Paused Table list, and has been closed.  The hypothesis that
each paused list holds no duplicates is the Paused Table invariant (a
task is in at most one list at a time); `_unpause_task` removes one
occurrence per list, so the invariant is what makes the removal
complete. -/
theorem wait_exit_clears_children (s : LoopState) (wid : Nat) (w : WaitState) (child : Task)
    (hw : waitLookup s.waits wid = some w)
    (hchild : child ∈ w.scheduled) (hnf : child ∉ w.finished)
    (hnodup : ∀ pr ∈ s.paused_tasks, pr.2.Nodup) :
    child ∉ timeqTasks (wait_exit s wid).scheduled_tasks
    ∧ (∀ pr ∈ (wait_exit s wid).paused_tasks, child ∉ pr.2)
    ∧ child ∈ (wait_exit s wid).closed := by
  unfold wait_exit
  rw [hw]
  exact foldl_wait_exit_clears w.finished child w.scheduled s hnodup hchild hnf

/-- Witness for C4 at a concrete state: the unfinished wrapper child
`waitWrap 0 (mk 2)` — paused on interface 42 before the exit — is in
neither structure afterwards and has been closed. -/
theorem wait_exit_clears_children_witness :
    (Task.waitWrap 0 (.mk 2)) ∉ timeqTasks (wait_exit exState 0).scheduled_tasks
    ∧ (Task.waitWrap 0 (.mk 2)) ∈ (wait_exit exState 0).closed := by
  have h := wait_exit_clears_children exState 0
    { children := [.mk 1, .mk 2], wait_for := 1, exit_others := true,
      scheduled := [.waitWrap 0 (.mk 1), .waitWrap 0 (.mk 2)],
      finished := [], task := some (.mk 8) }
    (.waitWrap 0 (.mk 2)) rfl (by decide) (by decide) (by decide)
  exact ⟨h.1, h.2.2⟩

/-- C3: when `run_forever` receives a message `(iface, v0, v1, ...)` it
pops the entire Paused Table entry for `iface` before stepping anything
(the popped table has no entry for `iface` left, given the dictionary
key-uniqueness invariant), then steps exactly the drained tasks, in the
order they were paused, each with the value list minus the iface field
(the step trace extends by precisely that list, so a task that
re-registers on `iface` via `Select` during its own step is not stepped
again with the current message); existing entries of other interfaces
are only ever extended, never disturbed; and a message on an interface
with no paused tasks leaves the state unchanged (the message is
discarded). -/
theorem run_forever_msg_spec (beh : Behavior) (s : LoopState) (iface : Nat) (vs : List Atom)
    (hkeys : (s.paused_tasks.map Prod.fst).Nodup) :
    pausedLookup (pausedPop s.paused_tasks iface) iface = none
    ∧ (run_forever_msg beh s iface vs).stepTrace
        = s.stepTrace ++ (lookupTasks s.paused_tasks iface).map (fun t => (t, Value.tup vs))
    ∧ (∀ j, j ≠ iface → ∃ ext,
        lookupTasks (run_forever_msg beh s iface vs).paused_tasks j
          = lookupTasks s.paused_tasks j ++ ext)
    ∧ (pausedLookup s.paused_tasks iface = none → run_forever_msg beh s iface vs = s) := by
  refine ⟨pausedPop_lookup_self s.paused_tasks iface hkeys, ?_, ?_, ?_⟩
  · unfold run_forever_msg
    rw [foldl_step_trace]
    rfl
  · intro j hj
    unfold run_forever_msg
    obtain ⟨ext, hext⟩ := foldl_step_paused_extends beh vs
      ((pausedLookup s.paused_tasks iface).getD [])
      ({ s with paused_tasks := pausedPop s.paused_tasks iface }) j
    refine ⟨ext, ?_⟩
    rw [hext]
    show (lookupTasks (pausedPop s.paused_tasks iface) j) ++ ext = _
    rw [lookupTasks, pausedPop_lookup_ne s.paused_tasks iface j hj]
    rfl
  · intro hnone
    unfold run_forever_msg
    rw [hnone, pausedPop_of_lookup_none s.paused_tasks iface hnone]
    rfl

/-- Witness for C3 at a concrete state: a message on interface 42 steps
the two tasks paused there, in order, with the payload tuple. -/
theorem run_forever_msg_spec_witness :
    (run_forever_msg exBehSelect exState 42 [.str "x"]).stepTrace
      = exState.stepTrace
          ++ (lookupTasks exState.paused_tasks 42).map (fun t => (t, Value.tup [.str "x"])) :=
  (run_forever_msg_spec exBehSelect exState 42 [.str "x"] (by decide)).2.1

/-- C9: for a task `t` not in the Time Queue, `schedule_task(t, v, d)`
followed immediately by `unschedule_task(t)` leaves the Time Queue equal
to its state before the pair of calls (the queue is represented in pop
order, so equality gives the same entries and the same pop order), and
`unschedule_task` removes every occurrence of `t` from any queue.  The
sortedness hypothesis is the pop-order invariant of the utimeq heap
(entries within half a wrap period of each other). -/
theorem schedule_then_unschedule_noop (s : LoopState) (t : Task) (v : Value) (d : Nat)
    (hsorted : s.scheduled_tasks.Pairwise (fun x y => tle x.deadline y.deadline = true))
    (hnot : t ∉ timeqTasks s.scheduled_tasks) :
    (unschedule_task (schedule_task s t v (some d)) t).scheduled_tasks = s.scheduled_tasks
    ∧ ∀ q : TimeQ, t ∉ timeqTasks (timeqUnschedule t q) := by
  constructor
  · have hq : ∀ x ∈ s.scheduled_tasks, x.task ≠ t := by
      intro x hx hxt
      exact hnot (by simp only [timeqTasks, List.mem_map]; exact ⟨x, hx, hxt⟩)
    show timeqUnschedule t (timeqPush s.scheduled_tasks ⟨d, t, v⟩) = s.scheduled_tasks
    have hfil : (timeqPush s.scheduled_tasks ⟨d, t, v⟩).filter (fun x => decide (x.task ≠ t))
        = s.scheduled_tasks :=
      filter_timeqPush _ _ _ rfl hq
    have hpair : (([] : TimeQ) ++ (timeqPush s.scheduled_tasks ⟨d, t, v⟩).filter
        (fun x : Entry => decide (x.task ≠ t))).Pairwise
        (fun x y : Entry => tle x.deadline y.deadline = true) := by
      rw [List.nil_append, hfil]
      exact hsorted
    unfold timeqUnschedule
    rw [unschedule_go_eq_filter t _ [] hpair, List.nil_append, hfil]
  · exact fun q => not_mem_tasks_timeqUnschedule t q

/-- Witness for C9 at a concrete sorted queue: scheduling `mk 3` at
deadline 50 and immediately unscheduling it restores the queue. -/
theorem schedule_then_unschedule_noop_witness :
    (unschedule_task (schedule_task exState (.mk 3) (.num 7) (some 50)) (.mk 3)).scheduled_tasks
      = exState.scheduled_tasks :=
  (schedule_then_unschedule_noop exState (.mk 3) (.num 7) 50 (by decide) (by decide)).1

/-- C7: `Signal._deliver` delivers exactly when both the task slot and
the value slot are occupied — then the task is scheduled on the Time
Queue at the current time with the stored value and both slots are
cleared, and otherwise the state is unchanged — and two `send` calls
with no intervening await produce exactly one delivery carrying the
second value (the first is overwritten): the Time Queue is unchanged by
the two sends, and the eventual `handle` schedules a single entry whose
value is the second one. -/
theorem signal_delivery_spec (s : LoopState) (sid : Nat) (sg : SignalState)
    (hsig : sigLookup s.signals sid = some sg) :
    (∀ t v, sg = ⟨some v, some t⟩ →
        signal_deliver s sid
          = { s with scheduled_tasks := timeqPush s.scheduled_tasks ⟨s.now, t, v⟩,
                     signals := sigSet s.signals sid ⟨none, none⟩ })
    ∧ (sg.task = none ∨ sg.value = none → signal_deliver s sid = s)
    ∧ (∀ x y t, sg.task = none →
        (signal_send (signal_send s sid x) sid y).scheduled_tasks = s.scheduled_tasks
        ∧ sigLookup (signal_send (signal_send s sid x) sid y).signals sid
            = some ⟨some y, none⟩
        ∧ (signal_handle (signal_send (signal_send s sid x) sid y) sid t).scheduled_tasks
            = timeqPush s.scheduled_tasks ⟨s.now, t, y⟩
        ∧ sigLookup (signal_handle (signal_send (signal_send s sid x) sid y) sid t).signals sid
            = some ⟨none, none⟩) := by
  refine ⟨?_, ?_, ?_⟩
  · rintro t v rfl
    exact signal_deliver_both s sid t v hsig
  · rintro (h | h)
    · exact signal_deliver_task_none s sid sg hsig h
    · exact signal_deliver_value_none s sid sg hsig h
  · intro x y t ht
    have h1 : signal_send s sid x = { s with signals := sigSet s.signals sid ⟨some x, none⟩ } :=
      signal_send_of_task_none s sid sg x hsig ht
    have hl1 : sigLookup (signal_send s sid x).signals sid = some ⟨some x, none⟩ := by
      rw [h1]
      simp [sigLookup_set_self, hsig]
    have h2 : signal_send (signal_send s sid x) sid y
        = { s with signals := sigSet (sigSet s.signals sid ⟨some x, none⟩) sid ⟨some y, none⟩ } := by
      rw [signal_send_of_task_none _ sid ⟨some x, none⟩ y hl1 rfl, h1]
    have hl2 : sigLookup (signal_send (signal_send s sid x) sid y).signals sid
        = some ⟨some y, none⟩ := by
      rw [h2]
      simp [sigLookup_set_self, hsig]
    have h3 : signal_handle (signal_send (signal_send s sid x) sid y) sid t
        = { s with
              scheduled_tasks := timeqPush s.scheduled_tasks ⟨s.now, t, y⟩,
              signals := sigSet
                (sigSet (sigSet (sigSet s.signals sid ⟨some x, none⟩) sid ⟨some y, none⟩)
                  sid ⟨some y, some t⟩) sid ⟨none, none⟩ } := by
      rw [signal_handle_eq _ sid ⟨some y, none⟩ t hl2, h2]
      exact signal_deliver_both _ sid t y (by simp [sigLookup_set_self, hsig])
    refine ⟨by rw [h2], hl2, by rw [h3], ?_⟩
    rw [h3]
    simp [sigLookup_set_self, hsig]

/-- Witness for C7 at a concrete signal: two buffered sends (1 then 2)
followed by an await deliver exactly the entry `(now, task, 2)`. -/
theorem signal_delivery_spec_witness :
    (signal_handle (signal_send (signal_send exState 0 (.num 1)) 0 (.num 2)) 0 (.mk 5)).scheduled_tasks
        = timeqPush exState.scheduled_tasks ⟨exState.now, .mk 5, .num 2⟩
    ∧ (signal_send (signal_send exState 0 (.num 1)) 0 (.num 2)).scheduled_tasks
        = exState.scheduled_tasks := by
  have h := (signal_delivery_spec exState 0 ⟨none, none⟩ rfl).2.2 (.num 1) (.num 2) (.mk 5) rfl
  exact ⟨h.2.2.1, h.1⟩

/-- C10: when a second task awaits the same Signal before any send, the
second awaiter replaces the first in the task slot; a subsequent
`send(v)` schedules only the second task (a single pushed entry), and
the first task is not scheduled by that signal. -/
theorem signal_second_waiter_replaces (s : LoopState) (sid : Nat) (sg : SignalState)
    (t1 t2 : Task) (v : Value)
    (hsig : sigLookup s.signals sid = some sg) (hv : sg.value = none) :
    sigLookup (signal_handle (signal_handle s sid t1) sid t2).signals sid
        = some ⟨none, some t2⟩
    ∧ (signal_send (signal_handle (signal_handle s sid t1) sid t2) sid v).scheduled_tasks
        = timeqPush s.scheduled_tasks ⟨s.now, t2, v⟩
    ∧ sigLookup (signal_send (signal_handle (signal_handle s sid t1) sid t2) sid v).signals sid
        = some ⟨none, none⟩
    ∧ (t1 ∉ timeqTasks s.scheduled_tasks → t1 ≠ t2 →
        t1 ∉ timeqTasks
          (signal_send (signal_handle (signal_handle s sid t1) sid t2) sid v).scheduled_tasks) := by
  have h1 : signal_handle s sid t1 = { s with signals := sigSet s.signals sid ⟨none, some t1⟩ } :=
    signal_handle_of_value_none s sid sg t1 hsig hv
  have hl1 : sigLookup (signal_handle s sid t1).signals sid = some ⟨none, some t1⟩ := by
    rw [h1]
    simp [sigLookup_set_self, hsig]
  have h2 : signal_handle (signal_handle s sid t1) sid t2
      = { s with signals := sigSet (sigSet s.signals sid ⟨none, some t1⟩) sid ⟨none, some t2⟩ } := by
    rw [signal_handle_of_value_none _ sid ⟨none, some t1⟩ t2 hl1 rfl, h1]
  have hl2 : sigLookup (signal_handle (signal_handle s sid t1) sid t2).signals sid
      = some ⟨none, some t2⟩ := by
    rw [h2]
    simp [sigLookup_set_self, hsig]
  have h3 : signal_send (signal_handle (signal_handle s sid t1) sid t2) sid v
      = { s with
            scheduled_tasks := timeqPush s.scheduled_tasks ⟨s.now, t2, v⟩,
            signals := sigSet
              (sigSet (sigSet (sigSet s.signals sid ⟨none, some t1⟩) sid ⟨none, some t2⟩)
                sid ⟨some v, some t2⟩) sid ⟨none, none⟩ } := by
    rw [signal_send_eq _ sid ⟨none, some t2⟩ v hl2, h2]
    exact signal_deliver_both _ sid t2 v (by simp [sigLookup_set_self, hsig])
  refine ⟨hl2, by rw [h3], ?_, ?_⟩
  · rw [h3]
    simp [sigLookup_set_self, hsig]
  · intro hmem hne
    rw [h3]
    intro hcontra
    rcases (timeqTasks_push s.scheduled_tasks ⟨s.now, t2, v⟩ t1).1 hcontra with h | h
    · exact hmem h
    · exact hne h

/-- Witness for C10 at a concrete signal: after `handle(mk 1)` then
`handle(mk 2)` then `send(9)`, only task `mk 2` is scheduled and task
`mk 1` is nowhere in the Time Queue. -/
theorem signal_second_waiter_replaces_witness :
    (signal_send (signal_handle (signal_handle exState 0 (.mk 1)) 0 (.mk 2)) 0 (.num 9)).scheduled_tasks
        = timeqPush exState.scheduled_tasks ⟨exState.now, .mk 2, .num 9⟩
    ∧ (Task.mk 1) ∉ timeqTasks
        (signal_send (signal_handle (signal_handle exState 0 (.mk 1)) 0 (.mk 2)) 0 (.num 9)).scheduled_tasks := by
  have h := signal_second_waiter_replaces exState 0 ⟨none, none⟩ (.mk 1) (.mk 2) (.num 9) rfl rfl
  exact ⟨h.2.1, h.2.2.2 (by decide) (by decide)⟩

/-- Witness for C8: a bare-yield task is rescheduled at `now`; a task
yielding the number 7 gets an unknown-syscall ERROR record. -/
theorem step_task_yield_outcomes_witness :
    (step_task exBehNone exState (.mk 0) .pynone).scheduled_tasks
        = timeqPush exState.scheduled_tasks ⟨exState.now, .mk 0, .pynone⟩
    ∧ (step_task exBehBad exState (.mk 0) .pynone).log
        = exState.log ++ [LogEvent.error "trezor.loop" "%s is unknown syscall" (.num 7)] :=
  ⟨((step_task_yield_outcomes exBehNone exState (.mk 0) .pynone).1 rfl).1,
   ((step_task_yield_outcomes exBehBad exState (.mk 0) .pynone).2 (.num 7) rfl
      (fun _ h => Value.noConfusion h) (fun h => Value.noConfusion h)).1⟩

end Trezor
